import Mathlib

/-!
# Verification of the corenlp-golang client library

Shallow embedding of the `client` package of `genelet/corenlp-golang`:
the length-prefixed protobuf framing (`BytesUnmarshal` /
`protowire.ConsumeBytes` / `protowire.ConsumeVarint`), the error values,
annotator validation (`ValidateAnnotators`), and the two backends
(`Cmd.RunText` and `HttpClient.RunText`) modelled as pure functions over
an explicit environment (results of the OS / network operations) that
also produce a trace of performed external effects.
-/

namespace CoreNLP

/-- Error code `errCodeTruncated` of `protowire` (value -1). -/
def errCodeTruncated : Int := -1

/-- Error code `errCodeOverflow` of `protowire` (value -3). -/
def errCodeOverflow : Int := -3

/-- The unrolled loop of `protowire.ConsumeVarint`: byte index `i`
(0-based), accumulated value `acc`.  Mirrors the Go source: at index 9
the final byte must be `< 2` (else overflow); at earlier indices a byte
`< 0x80` terminates, otherwise its low 7 bits are accumulated and the
loop continues; running out of bytes is the truncation error. -/
def consumeVarintGo : List Nat → Nat → Nat → Nat × Int
  | [], _, _ => (0, errCodeTruncated)
  | y :: rest, i, acc =>
    if i = 9 then
      if y < 2 then (acc + y * 2 ^ 63, 10) else (0, errCodeOverflow)
    else if y < 128 then (acc + y * 2 ^ (7 * i), (i : Int) + 1)
    else consumeVarintGo rest (i + 1) (acc + (y - 128) * 2 ^ (7 * i))

/-- Model of `protowire.ConsumeVarint b` returning `(v, n)`; `n < 0` encodes the
error codes, otherwise `n` is the number of bytes consumed. -/
def consumeVarint (b : List Nat) : Nat × Int :=
  consumeVarintGo b 0 0

/-- Model of `protowire.ConsumeBytes b`: parse a varint length `m`, then take the
next `m` bytes; returns `(bytes, n)` with `n < 0` on error (the varint
error is forwarded; insufficient remaining bytes is truncation). -/
def consumeBytes (b : List Nat) : List Nat × Int :=
  let p := consumeVarint b
  if p.2 < 0 then ([], p.2)
  else if p.1 > b.length - p.2.toNat then ([], errCodeTruncated)
  else ((b.drop p.2.toNat).take p.1, p.2 + (p.1 : Int))

/-- The canonical base-128 varint encoding of a natural number. -/
def encodeVarint (L : Nat) : List Nat :=
  if h : L < 128 then [L] else (L % 128 + 128) :: encodeVarint (L / 128)
termination_by L
decreasing_by
  exact Nat.div_lt_self (Nat.lt_of_lt_of_le (by norm_num) (Nat.le_of_not_lt h)) (by norm_num)

/-- Boolean infix test on lists (used to state that a pattern occurs
somewhere inside an encoded request). -/
def hasInfix (pat : List Char) : List Char → Bool
  | [] => pat.isEmpty
  | a :: rest => pat.isPrefixOf (a :: rest) || hasInfix pat rest

/-- The error values of the `client` package (`errors.go` plus the
`ParseError` returned by `protowire` inside `BytesUnmarshal` and the
`fmt.Errorf` wrappings used by `RunText`).  `serverError` carries the
fields of `ServerError` (a transport-level failure has the Go zero
value `0` as status code), `commandError` the fields of `CommandError`
(the wrapped underlying failure is kept as its message string). -/
inductive ClientErr : Type where
  | errEmptyInput : ClientErr
  | errNilMessage : ClientErr
  | serverError (url : String) (statusCode : Int) (message : String) : ClientErr
  | commandError (command : String) (stderr : String) (err : String) : ClientErr
  | parseError (n : Int) : ClientErr
  | wrapped (message : String) : ClientErr
deriving DecidableEq, Repr

/-- External effects a backend call can perform, in order.  `mkdirTemp`
and `writeFile` record created paths, `exec` the spawned command line,
`removeAll` the recursive deletion of the temporary directory,
`httpPost` a POST request (URL, Content-Type header, body). -/
inductive Eff : Type where
  | mkdirTemp (dir : String) : Eff
  | writeFile (path : String) (contents : List Nat) : Eff
  | exec (cmd : String) (args : List String) : Eff
  | readFile (path : String) : Eff
  | removeAll (path : String) : Eff
  | httpPost (url : String) (contentType : String) (body : List Nat) : Eff
deriving DecidableEq, Repr

/-- Model of `BytesUnmarshal data msg`: strip the length-prefix framing with
`protowire.ConsumeBytes`; a negative count is returned as
`protowire.ParseError(n)`; otherwise the framed payload is handed to
`proto.Unmarshal`, modelled by the parameter `unm` (payload decoding is
an external collaborator).  The Go message is mutated in place, so the
model threads the document value explicitly. -/
def bytesUnmarshal {Doc : Type} (unm : List Nat → Doc → Option ClientErr × Doc)
    (data : List Nat) (msg : Doc) : Option ClientErr × Doc :=
  let p := consumeBytes data
  if p.2 < 0 then (some (.parseError p.2), msg) else unm p.1 msg

/-- Model of `strings.Join` of Go: elements interleaved with the separator. -/
def goStringsJoin (elems : List String) (sep : String) : String :=
  String.intercalate sep elems

/-- Model of `unicode.IsSpace` of Go restricted to the Latin-1 range
(`\t \n \v \f \r space U+0085 U+00A0`); annotator names are ASCII so the
Unicode space categories above Latin-1 are not modelled. -/
def goIsSpace (c : Char) : Bool :=
  c.toNat ∈ [9, 10, 11, 12, 13, 32, 0x85, 0xA0]

/-- Model of `strings.TrimSpace` of Go: drop leading and trailing white space. -/
def trimSpace (s : String) : String :=
  String.mk (((s.data.dropWhile goIsSpace).reverse.dropWhile goIsSpace).reverse)

/-- The indexed loop of `ValidateAnnotators`: the first entry that is
empty or all-whitespace after trimming produces the error message with
its index. -/
def validateAnnotatorsGo : List String → Nat → Option String
  | [], _ => none
  | ann :: rest, i =>
    if trimSpace ann = "" then
      some ("annotator at index " ++ toString i ++ " is empty or whitespace")
    else validateAnnotatorsGo rest (i + 1)

/-- Model of `ValidateAnnotators` (`annotators.go`): `none` means success, `some`
carries the error message of the `fmt.Errorf` the Go code returns. -/
def validateAnnotators (annotators : List String) : Option String :=
  if annotators.length = 0 then some "at least one annotator is required"
  else validateAnnotatorsGo annotators 0

/-- Base-URL normalization of `NewHttpClient` (`http.go`, current
generation): append `/` when the URL is nonempty and its last byte is
not `/` (the last byte of a UTF-8 string equals `/` exactly when its
last character does). -/
def newHttpClientURL (curl : String) : String :=
  if curl.length > 0 ∧ curl.data.getLast? ≠ some '/' then curl ++ "/" else curl

/-- Base-URL normalization of the legacy `NewHttpClient` (old-generation
`http.go`): it slices the last TWO bytes, `curl[len(curl)-2:]`, and
compares them with `"/"`; `none` models the Go panic on a URL shorter
than two bytes.  A two-byte slice never equals the one-byte `"/"`, so
the separator is always appended. -/
def newHttpClientURLv0 (curl : String) : Option String :=
  if curl.data.length < 2 then none
  else if String.mk (curl.data.drop (curl.data.length - 2)) ≠ "/" then some (curl ++ "/")
  else some curl

/-- Number of consecutive `/` characters at the end of a string. -/
def countTrailingSlashes (s : String) : Nat :=
  (s.data.reverse.takeWhile (fun c => c = '/')).length

/-- Upper-case hexadecimal digit, as used by `net/url` escaping. -/
def hexDigitUpper (n : Nat) : Char :=
  (['0', '1', '2', '3', '4', '5', '6', '7', '8', '9',
    'A', 'B', 'C', 'D', 'E', 'F']).getD n '0'

/-- UTF-8 encoding of a code point, as the byte values Go iterates over. -/
def utf8Bytes (n : Nat) : List Nat :=
  if n < 0x80 then [n]
  else if n < 0x800 then [0xC0 + n / 64, 0x80 + n % 64]
  else if n < 0x10000 then [0xE0 + n / 4096, 0x80 + (n / 64) % 64, 0x80 + n % 64]
  else [0xF0 + n / 262144, 0x80 + (n / 4096) % 64, 0x80 + (n / 64) % 64, 0x80 + n % 64]

/-- Percent escape of one byte, upper-case hex. -/
def percentByte (b : Nat) : String :=
  String.mk ['%', hexDigitUpper (b / 16), hexDigitUpper (b % 16)]

/-- Model of `url.QueryEscape` on one character: unreserved characters
(`A-Z a-z 0-9 - _ . ~`) kept, space becomes `+`, everything else is
percent-escaped byte by byte. -/
def queryEscapeChar (c : Char) : String :=
  if ('A' ≤ c ∧ c ≤ 'Z') ∨ ('a' ≤ c ∧ c ≤ 'z') ∨ ('0' ≤ c ∧ c ≤ '9')
      ∨ c = '-' ∨ c = '_' ∨ c = '.' ∨ c = '~' then
    String.singleton c
  else if c = ' ' then "+"
  else String.join ((utf8Bytes c.toNat).map percentByte)

/-- Model of `url.QueryEscape` of Go. -/
def queryEscape (s : String) : String :=
  String.join (s.data.map queryEscapeChar)

/-- The `properties` JSON built by `HttpClient.RunText`: the
`annotators` field is prepended only when the Go slice is non-nil
(`h.Annotators != nil`), modelled by `Option`; the empty non-nil slice
still produces the field, with the empty comma-join. -/
def propsJSON (annotators : Option (List String)) : String :=
  let str := match annotators with
    | none => ""
    | some l => "\x22annotators\x22:\x22" ++ goStringsJoin l "," ++ "\x22,"
  "\x7b" ++ str ++
    "\x22outputFormat\x22:\x22serialized\x22,\x22serializer\x22:\x22edu.stanford.nlp.pipeline.ProtobufAnnotationSerializer\x22\x7d"

/-- The `HttpClient` configuration relevant to `RunText`: the annotator
slice (`none` models a nil Go slice) and the stored base URL. -/
structure HttpClientCfg : Type where
  Annotators : Option (List String)
  URL : String

/-- Outcome of a completed HTTP exchange: status code, status line text
(`res.Status`), and the result of reading the body (`io.ReadAll`). -/
structure HttpResponse : Type where
  statusCode : Int
  status : String
  bodyRead : Except String (List Nat)

/-- Environment for one `HttpClient.RunText` call: the outcome of
`http.NewRequestWithContext` (`some e` = failure), the outcome of
`httpClient.Do` (`.error e` = transport failure before any response),
and the `proto.Unmarshal` collaborator. -/
structure HttpEnv (Doc : Type) : Type where
  newRequestErr : Option String
  doResult : Except String HttpResponse
  unm : List Nat → Doc → Option ClientErr × Doc

/-- Model of `HttpClient.RunText` (current generation, `http.go`): validate the
input text and target message, build the request URL from the stored
base URL and the percent-encoded properties JSON, POST the text with
`Content-Type: text/plain`, map a transport failure to a status-less
`ServerError`, a non-2xx status to a `ServerError` with the numeric
code and `"HTTP status " + res.Status`, then frame-decode the body with
`BytesUnmarshal`.  Returns the error, the final document, and the trace
of external effects. -/
def httpRunText {Doc : Type} (h : HttpClientCfg) (env : HttpEnv Doc)
    (text : List Nat) (msg : Option Doc) : (Option ClientErr × Option Doc) × List Eff :=
  if text = [] then ((some .errEmptyInput, msg), [])
  else
    match msg with
    | none => ((some .errNilMessage, none), [])
    | some d =>
      let curl := h.URL ++ "?properties=" ++ queryEscape (propsJSON h.Annotators)
      match env.newRequestErr with
      | some e => ((some (.wrapped ("failed to create HTTP request: " ++ e)), some d), [])
      | none =>
        let tr := [Eff.httpPost curl "text/plain" text]
        match env.doResult with
        | .error e => ((some (.serverError h.URL 0 e), some d), tr)
        | .ok res =>
          if res.statusCode < 200 ∨ res.statusCode ≥ 300 then
            ((some (.serverError h.URL res.statusCode ("HTTP status " ++ res.status)), some d), tr)
          else
            match res.bodyRead with
            | .error e => ((some (.wrapped ("failed to read response body: " ++ e)), some d), tr)
            | .ok body =>
              let r := bytesUnmarshal env.unm body d
              ((r.1, some r.2), tr)

/-- The `Cmd` configuration (`cmd.go`): annotator list, Java classpath,
driver class, Java command, and extra arguments. -/
structure CmdCfg : Type where
  Annotators : List String
  ClassPath : String
  Class : String
  javaCmd : String
  Args : List String

/-- Environment for one `Cmd.RunText` call: outcome of `os.MkdirTemp`
(`.ok dir` = the created directory), of `os.WriteFile` (`some e` =
failure), of `cmd.Run` (`some e` = start/exit failure, including
context cancellation), the bytes the subprocess wrote to stderr and
stdout, the outcome of reading the output artifact, and the
`proto.Unmarshal` collaborator. -/
structure CmdEnv (Doc : Type) : Type where
  mkdirTemp : Except String String
  writeErr : Option String
  execErr : Option String
  stderrOut : String
  stdoutOut : String
  readResult : Except String (List Nat)
  unm : List Nat → Doc → Option ClientErr × Doc

/-- The argument list built by `Cmd.RunText`: extra `Args` first, then
`-cp` with the classpath when it is nonempty, the driver class, then
`-annotators` with the comma-join when the annotator list is nonempty,
then the fixed flags for input file, output directory, and serialized
output. -/
def cmdArgs (cfg : CmdCfg) (input dir : String) : List String :=
  let args := cfg.Args
  let args := if cfg.ClassPath ≠ "" then args ++ ["-cp", cfg.ClassPath] else args
  let args := args ++ [cfg.Class]
  let args :=
    if cfg.Annotators.length > 0 then
      args ++ ["-annotators", goStringsJoin cfg.Annotators ","]
    else args
  args ++ ["-file", input, "--outputDirectory", dir, "-outputFormat", "serialized",
    "-outputSerializer", "edu.stanford.nlp.pipeline.ProtobufAnnotationSerializer"]

/-- Model of `Cmd.RunText` (current generation, `cmd.go`): validate the input
text and target message, create a temporary directory (removed via
`defer os.RemoveAll` on every later return path, so `removeAll` is the
final trace entry), write the input file, run the subprocess capturing
stderr and stdout separately (a failure becomes `CommandError` with the
Java command name, the captured stderr, and the underlying error), read
the output artifact at the input path plus `".ser.gz"`, and
frame-decode it with `BytesUnmarshal`. -/
def cmdRunText {Doc : Type} (cfg : CmdCfg) (env : CmdEnv Doc)
    (text : List Nat) (msg : Option Doc) : (Option ClientErr × Option Doc) × List Eff :=
  if text = [] then ((some .errEmptyInput, msg), [])
  else
    match msg with
    | none => ((some .errNilMessage, none), [])
    | some d =>
      match env.mkdirTemp with
      | .error e => ((some (.wrapped ("failed to create temp directory: " ++ e)), some d), [])
      | .ok dir =>
        let input := dir ++ "/input.text"
        match env.writeErr with
        | some e =>
          ((some (.wrapped ("failed to write input file: " ++ e)), some d),
            [.mkdirTemp dir, .removeAll dir])
        | none =>
          let args := cmdArgs cfg input dir
          match env.execErr with
          | some e =>
            ((some (.commandError cfg.javaCmd env.stderrOut e), some d),
              [.mkdirTemp dir, .writeFile input text, .exec cfg.javaCmd args, .removeAll dir])
          | none =>
            match env.readResult with
            | .error e =>
              ((some (.wrapped ("failed to read output file: " ++ e)), some d),
                [.mkdirTemp dir, .writeFile input text, .exec cfg.javaCmd args,
                  .readFile (input ++ ".ser.gz"), .removeAll dir])
            | .ok data =>
              let r := bytesUnmarshal env.unm data d
              ((r.1, some r.2),
                [.mkdirTemp dir, .writeFile input text, .exec cfg.javaCmd args,
                  .readFile (input ++ ".ser.gz"), .removeAll dir])

/-- Whether a directory exists after an effect, given whether it existed
before: `mkdirTemp` of that directory creates it, `removeAll` of it (or
of a parent) deletes it, every other effect leaves it alone. -/
def dirAliveStep (d : String) (alive : Bool) : Eff → Bool
  | .mkdirTemp d' => if d' = d then true else alive
  | .removeAll p => if p.data.isPrefixOf d.data then false else alive
  | _ => alive

/-- Whether a directory exists after running a whole effect trace. -/
def dirAlive (d : String) (alive : Bool) (tr : List Eff) : Bool :=
  tr.foldl (dirAliveStep d) alive

/-- A successful varint parse is unaffected by extra bytes appended
after the terminating byte. -/
lemma consumeVarintGo_append : ∀ (p x : List Nat) (i acc : Nat),
    0 ≤ (consumeVarintGo p i acc).2 →
    consumeVarintGo (p ++ x) i acc = consumeVarintGo p i acc := by
  intro p
  induction p with
  | nil =>
    intro x i acc h
    simp [consumeVarintGo, errCodeTruncated] at h
  | cons y rest ih =>
    intro x i acc h
    by_cases h9 : i = 9
    · by_cases hy : y < 2 <;>
        simp [consumeVarintGo, h9, hy, errCodeOverflow] at h ⊢
    · by_cases hy : y < 128
      · simp [consumeVarintGo, h9, hy]
      · simp only [consumeVarintGo, h9, hy, if_false, List.cons_append] at h ⊢
        exact ih x (i + 1) _ h

/-- Correctness of the canonical encoding against the Go decoder: from
byte index `i` with accumulator `acc`, decoding `encodeVarint L`
followed by anything yields `acc + L * 2^(7i)` and consumes exactly the
encoding's width, provided the value fits the bytes remaining up to the
decoder's 10-byte maximum. -/
lemma consumeVarintGo_encode :
    ∀ (L i acc : Nat) (rest : List Nat), i ≤ 9 → L < 2 ^ (64 - 7 * i) →
      consumeVarintGo (encodeVarint L ++ rest) i acc
        = (acc + L * 2 ^ (7 * i), (i : Int) + (encodeVarint L).length) := by
  intro L
  induction L using Nat.strong_induction_on with
  | _ L ih =>
    intro i acc rest hi hL
    rw [encodeVarint]
    by_cases h128 : L < 128
    · simp only [dif_pos h128, List.cons_append, List.nil_append]
      by_cases h9 : i = 9
      · subst h9
        have h2 : L < 2 := by
          have he : (64 : Nat) - 7 * 9 = 1 := by norm_num
          rw [he] at hL
          simpa using hL
        simp [consumeVarintGo, h2]
      · simp [consumeVarintGo, h9, h128]
    · have hpos : 0 < L := by omega
      have h9 : i ≠ 9 := by
        intro h9; subst h9
        have : (64 : Nat) - 7 * 9 = 1 := by norm_num
        rw [this] at hL
        omega
      have hi8 : i ≤ 8 := by omega
      have hk : 7 * i + 7 ≤ 64 := by omega
      have hdiv : L / 128 < 2 ^ (64 - 7 * (i + 1)) := by
        rw [Nat.div_lt_iff_lt_mul (by norm_num : (0 : Nat) < 128)]
        calc L < 2 ^ (64 - 7 * i) := hL
          _ = 2 ^ (64 - 7 * (i + 1)) * 128 := by
            rw [show (128 : Nat) = 2 ^ 7 by norm_num, ← pow_add]
            congr 1
            omega
      have hy : ¬ (L % 128 + 128 < 128) := by omega
      simp only [dif_neg h128, List.cons_append]
      rw [show consumeVarintGo ((L % 128 + 128) :: (encodeVarint (L / 128) ++ rest)) i acc
            = consumeVarintGo (encodeVarint (L / 128) ++ rest) (i + 1)
                (acc + (L % 128 + 128 - 128) * 2 ^ (7 * i)) by
          simp [consumeVarintGo, h9, hy]]
      rw [ih (L / 128) (Nat.div_lt_self hpos (by norm_num)) (i + 1)
            (acc + (L % 128 + 128 - 128) * 2 ^ (7 * i)) rest (by omega) hdiv]
      have hsub : L % 128 + 128 - 128 = L % 128 := by omega
      have hmd : L % 128 + L / 128 * 128 = L := Nat.mod_add_div' L 128
      have hval : acc + L % 128 * 2 ^ (7 * i) + L / 128 * 2 ^ (7 * (i + 1))
          = acc + L * 2 ^ (7 * i) := by
        rw [show 7 * (i + 1) = 7 * i + 7 by ring, pow_add,
          show (2 : Nat) ^ 7 = 128 from rfl]
        calc acc + L % 128 * 2 ^ (7 * i) + L / 128 * (2 ^ (7 * i) * 128)
            = acc + (L % 128 + L / 128 * 128) * 2 ^ (7 * i) := by ring
          _ = acc + L * 2 ^ (7 * i) := by rw [hmd]
      rw [hsub, hval]
      simp only [List.length_cons, Prod.mk.injEq, true_and]
      push_cast
      ring

/-- A varint parse succeeding on exactly the prefix `p` gives the same
result on any extension of `p`. -/
lemma consumeVarint_extend (p x : List Nat) (L : Nat)
    (hp : consumeVarint p = (L, (p.length : Int))) :
    consumeVarint (p ++ x) = (L, (p.length : Int)) := by
  unfold consumeVarint at *
  rw [consumeVarintGo_append p x 0 0 (by rw [hp]; exact Int.ofNat_nonneg _), hp]

/-- The canonical encoding of any `L < 2^64` is accepted by the decoder,
with value `L` and width the encoding's length. -/
lemma consumeVarint_encode (L : Nat) (h : L < 2 ^ 64) :
    consumeVarint (encodeVarint L) = (L, ((encodeVarint L).length : Int)) := by
  have hg := consumeVarintGo_encode L 0 0 [] (by norm_num) (by simpa using h)
  simpa [consumeVarint] using hg

/-- Framing success: a buffer made of an accepted varint prefix with
value `L`, exactly `L` payload bytes, and arbitrary further bytes is
split by `ConsumeBytes` into exactly the payload, consuming
varint-width plus `L` bytes. -/
lemma consumeBytes_framed (p payload rest : List Nat) (L : Nat)
    (hp : consumeVarint p = (L, (p.length : Int)))
    (hlen : payload.length = L) :
    consumeBytes (p ++ (payload ++ rest)) = (payload, (p.length : Int) + (L : Int)) := by
  have hv := consumeVarint_extend p (payload ++ rest) L hp
  unfold consumeBytes
  rw [hv]
  have hnot : ¬ ((p.length : Int) < 0) := by exact Int.not_lt.mpr (Int.ofNat_nonneg _)
  simp only [hnot, if_false, Int.toNat_ofNat]
  have hlenall : (p ++ (payload ++ rest)).length - p.length = L + rest.length := by
    simp [List.length_append, hlen]
  rw [hlenall]
  have hle : ¬ (L > L + rest.length) := by omega
  simp only [hle, if_false]
  rw [List.drop_left, ← hlen, List.take_left]

/-- Framing failure: an accepted varint prefix with value `L` followed
by fewer than `L` bytes makes `ConsumeBytes` fail with the truncation
code. -/
lemma consumeBytes_short (p tail : List Nat) (L : Nat)
    (hp : consumeVarint p = (L, (p.length : Int)))
    (hshort : tail.length < L) :
    consumeBytes (p ++ tail) = ([], errCodeTruncated) := by
  have hv := consumeVarint_extend p tail L hp
  unfold consumeBytes
  rw [hv]
  have hnot : ¬ ((p.length : Int) < 0) := by exact Int.not_lt.mpr (Int.ofNat_nonneg _)
  simp only [hnot, if_false, Int.toNat_ofNat]
  have hlenall : (p ++ tail).length - p.length = tail.length := by
    simp [List.length_append]
  rw [hlenall]
  simp only [hshort, if_pos]

/-- C1: for every buffer whose first bytes are a well-formed base-128
varint (one the decoder accepts in full, in particular the canonical
encoding of any `L < 2^64`) encoding a length `L` followed by at least
`L` further bytes, `BytesUnmarshal` consumes exactly varint-width plus
`L` bytes, hands exactly those `L` bytes to the payload deserializer,
and ignores anything beyond; with fewer than `L` trailing bytes, or a
malformed varint, it fails with the framing `ParseError`. -/
theorem bytesUnmarshal_framing {Doc : Type}
    (unm : List Nat → Doc → Option ClientErr × Doc) (d : Doc)
    (p payload rest tail data : List Nat) (L L' : Nat)
    (hp : consumeVarint p = (L, (p.length : Int)))
    (hlen : payload.length = L)
    (hshort : tail.length < L)
    (hbad : (consumeVarint data).2 < 0)
    (hL' : L' < 2 ^ 64) :
    consumeBytes (p ++ (payload ++ rest)) = (payload, (p.length : Int) + (L : Int))
    ∧ bytesUnmarshal unm (p ++ (payload ++ rest)) d = unm payload d
    ∧ consumeBytes (p ++ tail) = ([], errCodeTruncated)
    ∧ bytesUnmarshal unm (p ++ tail) d = (some (.parseError errCodeTruncated), d)
    ∧ bytesUnmarshal unm data d = (some (.parseError (consumeVarint data).2), d)
    ∧ consumeVarint (encodeVarint L') = (L', ((encodeVarint L').length : Int)) := by
  have hok := consumeBytes_framed p payload rest L hp hlen
  have hshorte := consumeBytes_short p tail L hp hshort
  refine ⟨hok, ?_, hshorte, ?_, ?_, consumeVarint_encode L' hL'⟩
  · unfold bytesUnmarshal
    rw [hok]
    have hnot : ¬ ((p.length : Int) + (L : Int) < 0) := by
      have h1 : (0 : Int) ≤ (p.length : Int) := Int.ofNat_nonneg _
      have h2 : (0 : Int) ≤ (L : Int) := Int.ofNat_nonneg _
      omega
    simp [hnot]
  · unfold bytesUnmarshal
    rw [hshorte]
    simp [errCodeTruncated]
  · unfold bytesUnmarshal consumeBytes
    simp [hbad]

/-- Witness for `bytesUnmarshal_framing`: length 3, payload `[7,8,9]`,
trailing junk ignored; a two-byte tail is too short; `[0x80]` is a
truncated varint. -/
theorem bytesUnmarshal_framing_witness :
    ([7, 8, 9] : List Nat).length = 3
    ∧ bytesUnmarshal (fun bs (x : Nat) => (none, x + bs.length)) [3, 7, 8, 9, 1, 2] 5
      = (fun bs (x : Nat) => ((none : Option ClientErr), x + bs.length)) [7, 8, 9] 5
    ∧ bytesUnmarshal (fun bs (x : Nat) => (none, x + bs.length)) [3, 4, 5] 5
      = (some (.parseError errCodeTruncated), 5) := by
  have h := bytesUnmarshal_framing (fun bs (x : Nat) => (none, x + bs.length)) 5
    [3] [7, 8, 9] [1, 2] [4, 5] [0x80] 3 300 (by decide) rfl (by decide) (by decide)
    (by norm_num)
  exact ⟨rfl, h.2.1, h.2.2.2.1⟩

/-- C10: on any buffer whose length-prefix framing fails, the decode
step returns the framing `ParseError`, leaves the target document
exactly as it was, and never invokes the payload deserializer (the
result is the same for every deserializer). -/
theorem bytesUnmarshal_framing_failure_pure {Doc : Type}
    (unm unm' : List Nat → Doc → Option ClientErr × Doc) (data : List Nat) (d : Doc)
    (hbad : (consumeBytes data).2 < 0) :
    bytesUnmarshal unm data d = (some (.parseError (consumeBytes data).2), d)
    ∧ bytesUnmarshal unm data d = bytesUnmarshal unm' data d := by
  unfold bytesUnmarshal
  simp [hbad]

/-- Witness for `bytesUnmarshal_framing_failure_pure` on the truncated
buffer `[0x80]`, with two deserializers that disagree everywhere. -/
theorem bytesUnmarshal_framing_failure_pure_witness :
    bytesUnmarshal (fun _ (x : Nat) => (none, x + 1)) [0x80] 5
      = (some (.parseError (consumeBytes [0x80]).2), 5)
    ∧ bytesUnmarshal (fun _ (x : Nat) => (none, x + 1)) [0x80] 5
      = bytesUnmarshal (fun _ (x : Nat) => (some .errEmptyInput, x + 2)) [0x80] 5 :=
  bytesUnmarshal_framing_failure_pure _ _ [0x80] 5 (by decide)

/-- The validation loop succeeds exactly when no entry is blank after
trimming, whatever the starting index. -/
lemma validateAnnotatorsGo_none_iff : ∀ (l : List String) (i : Nat),
    validateAnnotatorsGo l i = none ↔ ∀ a ∈ l, trimSpace a ≠ "" := by
  intro l
  induction l with
  | nil => intro i; simp [validateAnnotatorsGo]
  | cons ann rest ih =>
    intro i
    by_cases hb : trimSpace ann = ""
    · simp [validateAnnotatorsGo, hb]
    · simp [validateAnnotatorsGo, hb, ih (i + 1)]

/-- C6: `ValidateAnnotators` succeeds exactly on the non-empty lists
none of whose entries is empty or all-whitespace after trimming (so it
fails, with the configuration error, on the nil/empty list and on any
list with a blank entry), and its verdict is invariant under
reordering: it never rejects a list because of stage order or
dependencies. -/
theorem validateAnnotators_characterization (l : List String) :
    (validateAnnotators l = none ↔ l ≠ [] ∧ ∀ a ∈ l, trimSpace a ≠ "")
    ∧ (∀ l' : List String, l.Perm l' →
        (validateAnnotators l = none ↔ validateAnnotators l' = none)) := by
  have hchar : ∀ m : List String,
      validateAnnotators m = none ↔ m ≠ [] ∧ ∀ a ∈ m, trimSpace a ≠ "" := by
    intro m
    unfold validateAnnotators
    rcases m with _ | ⟨a, rest⟩
    · simp
    · simp [validateAnnotatorsGo_none_iff]
  refine ⟨hchar l, fun l' hperm => ?_⟩
  rw [hchar l, hchar l']
  have hlen := hperm.length_eq
  constructor
  · rintro ⟨hne, hall⟩
    refine ⟨fun h => hne (List.length_eq_zero.mp (by rw [hlen, h]; rfl)),
      fun a ha => hall a (hperm.mem_iff.mpr ha)⟩
  · rintro ⟨hne, hall⟩
    refine ⟨fun h => hne (List.length_eq_zero.mp (by rw [← hlen, h]; rfl)),
      fun a ha => hall a (hperm.mem_iff.mp ha)⟩

/-- Witness for `validateAnnotators_characterization`: a two-stage list
validates, in either order; the empty list and a whitespace entry fail. -/
theorem validateAnnotators_characterization_witness :
    (validateAnnotators ["tokenize", "pos"] = none
      ↔ validateAnnotators ["pos", "tokenize"] = none)
    ∧ validateAnnotators ["tokenize", "pos"] = none
    ∧ validateAnnotators [] ≠ none
    ∧ validateAnnotators ["tokenize", " "] ≠ none :=
  ⟨(validateAnnotators_characterization ["tokenize", "pos"]).2 ["pos", "tokenize"]
      (List.Perm.swap "pos" "tokenize" []),
    by decide, by decide, by decide⟩

/-- String concatenation acts as concatenation on the character data. -/
lemma strData_append (a b : String) : (a ++ b).data = a.data ++ b.data := rfl

/-- A list whose head is not `/` has no leading run of `/`. -/
lemma takeWhile_slash_nil {l : List Char} (h : l.head? ≠ some '/') :
    l.takeWhile (fun c => c = '/') = [] := by
  cases l with
  | nil => rfl
  | cons a t =>
    have ha : ¬ (a = '/') := by
      intro hae
      exact h (by simp [hae])
    simp [List.takeWhile_cons, ha]

/-- C3 counterexample: the claim "the stored URL ends with exactly one
trailing separator, appended when absent and never doubled" fails.  The
current constructor leaves the empty configured URL without any
separator, and the legacy constructor (which slices the last two bytes)
appends a second separator to a URL that already ends with one. -/
theorem newHttpClientURL_counterexample :
    newHttpClientURL "" = ""
    ∧ countTrailingSlashes (newHttpClientURL "") = 0
    ∧ newHttpClientURLv0 "http://localhost:9000/" = some "http://localhost:9000//"
    ∧ countTrailingSlashes "http://localhost:9000//" = 2 := by
  refine ⟨by decide, by decide, by decide, by decide⟩

/-- C3 amended: for every nonempty configured base URL, `NewHttpClient`
appends exactly one separator when the last character is not `/` (the
stored URL then ends with exactly one `/`), and stores a URL already
ending with `/` unchanged, so one trailing separator is never doubled. -/
theorem newHttpClientURL_normalizes (s : String) (hne : s ≠ "") :
    (s.data.getLast? ≠ some '/' →
      newHttpClientURL s = s ++ "/" ∧ countTrailingSlashes (newHttpClientURL s) = 1)
    ∧ (s.data.getLast? = some '/' → newHttpClientURL s = s) := by
  have hdata : s.data ≠ [] := by
    intro hd
    exact hne (by cases s; simp_all)
  have hlen : s.length > 0 := by
    have h0 : s.data.length ≠ 0 := fun h => hdata (List.length_eq_zero.mp h)
    exact Nat.pos_of_ne_zero h0
  constructor
  · intro hlast
    have heq : newHttpClientURL s = s ++ "/" := by
      unfold newHttpClientURL
      rw [if_pos ⟨hlen, hlast⟩]
    refine ⟨heq, ?_⟩
    rw [heq]
    unfold countTrailingSlashes
    rw [strData_append, List.reverse_append]
    have hrev : s.data.reverse.head? ≠ some '/' := by
      rw [List.head?_reverse]
      exact hlast
    simp [List.takeWhile_cons, takeWhile_slash_nil hrev]
  · intro hlast
    unfold newHttpClientURL
    rw [if_neg]
    rintro ⟨-, hc⟩
    exact hc hlast

/-- Witness for `newHttpClientURL_normalizes` at `"http://h"` (no
trailing separator: one is appended) and `"http://h/"` (already
terminated: unchanged). -/
theorem newHttpClientURL_normalizes_witness :
    (newHttpClientURL "http://h" = "http://h" ++ "/"
      ∧ countTrailingSlashes (newHttpClientURL "http://h") = 1)
    ∧ newHttpClientURL "http://h/" = "http://h/" :=
  ⟨(newHttpClientURL_normalizes "http://h" (by decide)).1 (by decide),
    (newHttpClientURL_normalizes "http://h/" (by decide)).2 (by decide)⟩

/-- C2: for both backends, `RunText` on empty input returns the shared
`ErrEmptyInput` sentinel, and (for nonempty input) a nil target message
returns the shared `ErrNilMessage` sentinel, each with an empty effect
trace — before any directory, file, subprocess, or network activity;
the sentinel value is the same for both backends. -/
theorem runText_sentinels {Doc : Type} (cfg : CmdCfg) (cenv : CmdEnv Doc)
    (h : HttpClientCfg) (henv : HttpEnv Doc) (msg : Option Doc) (text : List Nat) :
    (cmdRunText cfg cenv [] msg = ((some .errEmptyInput, msg), [])
      ∧ httpRunText h henv [] msg = ((some .errEmptyInput, msg), []))
    ∧ (text ≠ [] →
      cmdRunText cfg cenv text none = ((some .errNilMessage, none), [])
        ∧ httpRunText h henv text none = ((some .errNilMessage, none), [])) := by
  refine ⟨⟨by simp [cmdRunText], by simp [httpRunText]⟩, fun htext => ⟨?_, ?_⟩⟩
  · unfold cmdRunText
    rw [if_neg htext]
  · unfold httpRunText
    rw [if_neg htext]

/-- Witness for `runText_sentinels` with `Doc := Nat`, concrete
environments, and the one-byte text `[72]`. -/
theorem runText_sentinels_witness :
    cmdRunText ⟨["tokenize"], "*", "C", "java", []⟩
        ⟨.ok "/tmp/t", none, none, "", "", .ok [], fun _ (d : Nat) => (none, d)⟩
        [72] none
      = ((some .errNilMessage, none), [])
    ∧ httpRunText ⟨some ["tokenize"], "http://h/"⟩
        ⟨none, .error "refused", fun _ (d : Nat) => (none, d)⟩ [72] none
      = ((some .errNilMessage, none), []) :=
  (runText_sentinels ⟨["tokenize"], "*", "C", "java", []⟩
      ⟨.ok "/tmp/t", none, none, "", "", .ok [], fun _ (d : Nat) => (none, d)⟩
      ⟨some ["tokenize"], "http://h/"⟩
      ⟨none, .error "refused", fun _ (d : Nat) => (none, d)⟩
      none [72]).2 (by decide)

/-- C4: any completed HTTP exchange whose status code lies outside
[200,300) makes `HttpClient.RunText` fail with a `ServerError` carrying
the client's stored base URL, the numeric status code, and the status
text (prefixed `"HTTP status "`, from `res.Status`). -/
theorem httpRunText_non2xx {Doc : Type} (h : HttpClientCfg) (env : HttpEnv Doc)
    (text : List Nat) (d : Doc) (res : HttpResponse)
    (htext : text ≠ []) (hreq : env.newRequestErr = none)
    (hdo : env.doResult = .ok res)
    (hstatus : res.statusCode < 200 ∨ res.statusCode ≥ 300) :
    (httpRunText h env text (some d)).1.1
      = some (.serverError h.URL res.statusCode ("HTTP status " ++ res.status)) := by
  unfold httpRunText
  rw [if_neg htext]
  simp only [hreq, hdo]
  rw [if_pos hstatus]

/-- Witness for `httpRunText_non2xx`: a 404 response gives a
`ServerError` with status-code field 404 and the client's base URL. -/
theorem httpRunText_non2xx_witness :
    (httpRunText ⟨some ["tokenize"], "http://localhost:9000/"⟩
        ⟨none, .ok ⟨404, "404 Not Found", .ok []⟩, fun _ (d : Nat) => (none, d)⟩
        [72] (some 0)).1.1
      = some (.serverError "http://localhost:9000/" 404 "HTTP status 404 Not Found") :=
  httpRunText_non2xx ⟨some ["tokenize"], "http://localhost:9000/"⟩
    ⟨none, .ok ⟨404, "404 Not Found", .ok []⟩, fun _ (d : Nat) => (none, d)⟩
    [72] 0 ⟨404, "404 Not Found", .ok []⟩ (by decide) rfl rfl (by decide)

/-- A list is a Boolean prefix of itself followed by anything. -/
lemma isPrefixOf_append_self (l t : List Char) : l.isPrefixOf (l ++ t) = true :=
  List.isPrefixOf_iff_prefix.mpr (List.prefix_append l t)

/-- A pattern that prefixes the tail occurs as an infix of the whole. -/
lemma hasInfix_of_prefix_tail (pat : List Char) :
    ∀ (pre post : List Char), pat.isPrefixOf post = true →
      hasInfix pat (pre ++ post) = true := by
  intro pre
  induction pre with
  | nil =>
    intro post h
    cases post with
    | nil =>
      cases pat with
      | nil => rfl
      | cons a t => simp [List.isPrefixOf] at h
    | cons a rest => simp [hasInfix, h]
  | cons b pre' ih =>
    intro post h
    simp [hasInfix, ih post h]

set_option maxRecDepth 8192 in
/-- C5 counterexample: a client configured with an empty (non-nil) stage
list — no stages configured — still sends an `annotators` key, holding
the empty string, in the percent-encoded properties JSON of the request
URL; the key is not omitted. -/
theorem httpRunText_empty_annotators_counterexample :
    (httpRunText ⟨some [], "http://h/"⟩
        ⟨none, .error "refused", fun _ (d : Nat) => (none, d)⟩ [72] (some 0)).2
      = [.httpPost ("http://h/" ++ "?properties=" ++ queryEscape (propsJSON (some [])))
          "text/plain" [72]]
    ∧ hasInfix "annotators".data (queryEscape (propsJSON (some []))).data = true
    ∧ propsJSON (some []) ≠ propsJSON none := by
  refine ⟨rfl, by decide, by decide⟩

/-- C5 amended: every request of `HttpClient.RunText` POSTs to the
stored base URL plus `?properties=` plus the percent-encoding of the
properties JSON, with `Content-Type: text/plain` and the raw text as
body; the JSON holds the fixed serialized-output and serializer fields,
and an `annotators` key (the comma-joined stage list) exactly when the
Go annotator slice is non-nil — a nil slice omits the key entirely,
while an empty non-nil slice produces the key with the empty string. -/
theorem httpRunText_request_url {Doc : Type} (h : HttpClientCfg) (env : HttpEnv Doc)
    (text : List Nat) (d : Doc)
    (htext : text ≠ []) (hreq : env.newRequestErr = none) :
    (httpRunText h env text (some d)).2
      = [.httpPost (h.URL ++ "?properties=" ++ queryEscape (propsJSON h.Annotators))
          "text/plain" text]
    ∧ propsJSON none
      = "\x7b" ++ "\x22outputFormat\x22:\x22serialized\x22,\x22serializer\x22:\x22edu.stanford.nlp.pipeline.ProtobufAnnotationSerializer\x22\x7d"
    ∧ (∀ l : List String, propsJSON (some l)
      = "\x7b" ++ ("\x22annotators\x22:\x22" ++ goStringsJoin l "," ++ "\x22,")
        ++ "\x22outputFormat\x22:\x22serialized\x22,\x22serializer\x22:\x22edu.stanford.nlp.pipeline.ProtobufAnnotationSerializer\x22\x7d")
    ∧ (∀ l : List String, hasInfix "annotators".data (propsJSON (some l)).data = true)
    ∧ hasInfix "annotators".data (propsJSON none).data = false := by
  refine ⟨?_, by decide, fun l => rfl, fun l => ?_, by decide⟩
  · unfold httpRunText
    rw [if_neg htext]
    simp only [hreq]
    cases hdr : env.doResult with
    | error e => rfl
    | ok res =>
      dsimp only
      by_cases hs : res.statusCode < 200 ∨ res.statusCode ≥ 300
      · rw [if_pos hs]
      · rw [if_neg hs]
        cases hb : res.bodyRead with
        | error e => rfl
        | ok body => rfl
  · have hdec : (propsJSON (some l)).data
        = ['{', '"'] ++ ("annotators".data
            ++ ("\x22:\x22" ++ (goStringsJoin l "," ++ ("\x22,"
              ++ "\x22outputFormat\x22:\x22serialized\x22,\x22serializer\x22:\x22edu.stanford.nlp.pipeline.ProtobufAnnotationSerializer\x22\x7d"))).data) := by
      simp only [propsJSON, strData_append, List.append_assoc]
      rfl
    rw [hdec]
    exact hasInfix_of_prefix_tail _ _ _ (isPrefixOf_append_self _ _)

/-- Witness for `httpRunText_request_url` with a nil annotator slice and
a one-stage slice. -/
theorem httpRunText_request_url_witness :
    (httpRunText ⟨none, "http://h/"⟩
        ⟨none, .error "refused", fun _ (d : Nat) => (none, d)⟩ [72] (some 0)).2
      = [.httpPost ("http://h/" ++ "?properties=" ++ queryEscape (propsJSON none))
          "text/plain" [72]]
    ∧ hasInfix "annotators".data (propsJSON (some ["tokenize"])).data = true
    ∧ hasInfix "annotators".data (propsJSON none).data = false := by
  have h := httpRunText_request_url ⟨none, "http://h/"⟩
    ⟨none, .error "refused", fun _ (d : Nat) => (none, d)⟩ [72] 0 (by decide) rfl
  exact ⟨h.1, h.2.2.2.1 ["tokenize"], h.2.2.2.2⟩

/-- C7 counterexample: with an empty configured classpath the argument
list contains no `-cp` flag at all, so "extra arguments, then `-cp`
with the classpath, then the driver class, ..." does not hold of every
call. -/
theorem cmdArgs_classpath_counterexample :
    cmdArgs ⟨[], "", "edu.stanford.nlp.pipeline.StanfordCoreNLP", "java", []⟩
        "/tmp/c/input.text" "/tmp/c"
      = ["edu.stanford.nlp.pipeline.StanfordCoreNLP", "-file", "/tmp/c/input.text",
          "--outputDirectory", "/tmp/c", "-outputFormat", "serialized",
          "-outputSerializer", "edu.stanford.nlp.pipeline.ProtobufAnnotationSerializer"]
    ∧ ¬ ("-cp" ∈ cmdArgs ⟨[], "", "edu.stanford.nlp.pipeline.StanfordCoreNLP", "java", []⟩
        "/tmp/c/input.text" "/tmp/c") := by
  refine ⟨by decide, by decide⟩

/-- C7 amended: `Cmd.RunText` spawns exactly one subprocess whose
argument list is the extra arguments, then — only when the classpath is
nonempty — `-cp` with the classpath, then the driver class, then — only
when the stage list is nonempty — `-annotators` with the comma-joined
stages, then the fixed `-file`/`--outputDirectory`/`-outputFormat
serialized`/`-outputSerializer` flags; afterwards the output artifact is
read from the input path plus the `.ser.gz` suffix. -/
theorem cmdRunText_invocation {Doc : Type} (cfg : CmdCfg) (env : CmdEnv Doc)
    (text : List Nat) (d : Doc) (dir : String)
    (htext : text ≠ []) (hmk : env.mkdirTemp = .ok dir) (hw : env.writeErr = none) :
    (cmdRunText cfg env text (some d)).2
      = [.mkdirTemp dir, .writeFile (dir ++ "/input.text") text,
          .exec cfg.javaCmd (cmdArgs cfg (dir ++ "/input.text") dir)]
        ++ (match env.execErr with
            | some _ => [.removeAll dir]
            | none => [.readFile ((dir ++ "/input.text") ++ ".ser.gz"), .removeAll dir])
    ∧ cmdArgs cfg (dir ++ "/input.text") dir
      = cfg.Args
        ++ (if cfg.ClassPath ≠ "" then ["-cp", cfg.ClassPath] else [])
        ++ [cfg.Class]
        ++ (if cfg.Annotators.length > 0
            then ["-annotators", goStringsJoin cfg.Annotators ","] else [])
        ++ ["-file", dir ++ "/input.text", "--outputDirectory", dir, "-outputFormat",
            "serialized", "-outputSerializer",
            "edu.stanford.nlp.pipeline.ProtobufAnnotationSerializer"] := by
  constructor
  · unfold cmdRunText
    rw [if_neg htext]
    simp only [hmk, hw]
    cases he : env.execErr with
    | some e => rfl
    | none =>
      cases hr : env.readResult with
      | error e => rfl
      | ok body => rfl
  · unfold cmdArgs
    by_cases hc : cfg.ClassPath = "" <;>
      by_cases ha : cfg.Annotators.length > 0 <;>
        simp [hc, ha, List.append_assoc]

/-- Witness for `cmdRunText_invocation`: a failing subprocess with
classpath, stages, and extra arguments all present. -/
theorem cmdRunText_invocation_witness :
    (cmdRunText ⟨["tokenize", "pos"], "/cp/*", "CLS", "java", ["-mx4g"]⟩
        ⟨.ok "/tmp/t", none, some "exit status 1", "boom", "out", .error "gone",
          fun _ (d : Nat) => (none, d)⟩ [72] (some 0)).2
      = [.mkdirTemp "/tmp/t", .writeFile ("/tmp/t" ++ "/input.text") [72],
          .exec "java" (cmdArgs ⟨["tokenize", "pos"], "/cp/*", "CLS", "java", ["-mx4g"]⟩
            ("/tmp/t" ++ "/input.text") "/tmp/t")]
        ++ [.removeAll "/tmp/t"]
    ∧ cmdArgs ⟨["tokenize", "pos"], "/cp/*", "CLS", "java", ["-mx4g"]⟩
        ("/tmp/t" ++ "/input.text") "/tmp/t"
      = ["-mx4g"] ++ ["-cp", "/cp/*"] ++ ["CLS"] ++ ["-annotators", "tokenize,pos"]
        ++ ["-file", "/tmp/t" ++ "/input.text", "--outputDirectory", "/tmp/t",
            "-outputFormat", "serialized", "-outputSerializer",
            "edu.stanford.nlp.pipeline.ProtobufAnnotationSerializer"] := by
  have h := cmdRunText_invocation ⟨["tokenize", "pos"], "/cp/*", "CLS", "java", ["-mx4g"]⟩
    ⟨.ok "/tmp/t", none, some "exit status 1", "boom", "out", .error "gone",
      fun _ (d : Nat) => (none, d)⟩ [72] 0 "/tmp/t" (by decide) rfl rfl
  refine ⟨h.1, ?_⟩
  rw [h.2]
  simp only [goStringsJoin]
  decide

/-- A character list is a Boolean prefix of itself. -/
lemma charsPrefix_self (l : List Char) : l.isPrefixOf l = true := by
  have h := isPrefixOf_append_self l []
  rw [List.append_nil] at h
  exact h

/-- C8: whenever `Cmd.RunText` gets past creating its temporary working
directory, the trace ends with `removeAll` of that directory on every
exit path (input-write failure, subprocess failure — including
cancellation —, output-read failure, decode failure, and success), so
the directory no longer exists after the call returns. -/
theorem cmdRunText_tempdir_cleanup {Doc : Type} (cfg : CmdCfg) (env : CmdEnv Doc)
    (text : List Nat) (d : Doc) (dir : String) (b : Bool)
    (htext : text ≠ []) (hmk : env.mkdirTemp = .ok dir) :
    ((cmdRunText cfg env text (some d)).2).getLast? = some (.removeAll dir)
    ∧ dirAlive dir b (cmdRunText cfg env text (some d)).2 = false := by
  unfold cmdRunText
  rw [if_neg htext]
  simp only [hmk]
  have hself : dir.data.isPrefixOf dir.data = true := charsPrefix_self dir.data
  cases hw : env.writeErr with
  | some e => exact ⟨rfl, by simp [dirAlive, dirAliveStep, hself]⟩
  | none =>
    cases he : env.execErr with
    | some e => exact ⟨rfl, by simp [dirAlive, dirAliveStep, hself]⟩
    | none =>
      cases hr : env.readResult with
      | error e => exact ⟨rfl, by simp [dirAlive, dirAliveStep, hself]⟩
      | ok body => exact ⟨rfl, by simp [dirAlive, dirAliveStep, hself]⟩

/-- Witness for `cmdRunText_tempdir_cleanup`: a call whose subprocess
fails still removes the temporary directory last. -/
theorem cmdRunText_tempdir_cleanup_witness :
    ((cmdRunText ⟨["tokenize"], "*", "CLS", "java", []⟩
        ⟨.ok "/tmp/w", none, some "signal: killed", "", "", .ok [],
          fun _ (d : Nat) => (none, d)⟩ [72] (some 0)).2).getLast?
      = some (.removeAll "/tmp/w")
    ∧ dirAlive "/tmp/w" false
        (cmdRunText ⟨["tokenize"], "*", "CLS", "java", []⟩
          ⟨.ok "/tmp/w", none, some "signal: killed", "", "", .ok [],
            fun _ (d : Nat) => (none, d)⟩ [72] (some 0)).2 = false :=
  cmdRunText_tempdir_cleanup ⟨["tokenize"], "*", "CLS", "java", []⟩
    ⟨.ok "/tmp/w", none, some "signal: killed", "", "", .ok [],
      fun _ (d : Nat) => (none, d)⟩ [72] 0 "/tmp/w" false (by decide) rfl

/-- C9: a failing subprocess makes `Cmd.RunText` return a `CommandError`
whose command field is the configured executable, whose stderr field is
exactly the bytes the subprocess wrote to standard error, and which
carries the underlying failure; the captured standard output never
influences the result. -/
theorem cmdRunText_exec_failure {Doc : Type} (cfg : CmdCfg) (env : CmdEnv Doc)
    (text : List Nat) (d : Doc) (dir e : String) (so so' : String)
    (htext : text ≠ []) (hmk : env.mkdirTemp = .ok dir) (hw : env.writeErr = none)
    (he : env.execErr = some e) :
    (cmdRunText cfg env text (some d)).1.1
      = some (.commandError cfg.javaCmd env.stderrOut e)
    ∧ cmdRunText cfg { env with stdoutOut := so } text (some d)
      = cmdRunText cfg { env with stdoutOut := so' } text (some d) := by
  constructor
  · unfold cmdRunText
    rw [if_neg htext]
    simp only [hmk, hw, he]
  · rfl

/-- Witness for `cmdRunText_exec_failure`: a non-zero exit with
distinct stderr and stdout contents. -/
theorem cmdRunText_exec_failure_witness :
    (cmdRunText ⟨["tokenize"], "*", "CLS", "java", []⟩
        ⟨.ok "/tmp/x", none, some "exit status 1", "engine diagnostics", "progress",
          .ok [], fun _ (d : Nat) => (none, d)⟩ [72] (some 0)).1.1
      = some (.commandError "java" "engine diagnostics" "exit status 1") :=
  (cmdRunText_exec_failure ⟨["tokenize"], "*", "CLS", "java", []⟩
    ⟨.ok "/tmp/x", none, some "exit status 1", "engine diagnostics", "progress",
      .ok [], fun _ (d : Nat) => (none, d)⟩ [72] 0 "/tmp/x" "exit status 1" "a" "b"
    (by decide) rfl rfl rfl).1

end CoreNLP
